import Mathlib

/-!
Verification development for the Apple Health XML-to-CSV converter
(`apple_health_xml_convert.py`).  Python strings are modelled as lists of
characters, `None`/`NaN` cells as `Option`, and the pandas `DataFrame` as an
explicit column list plus positional rows.  Fallible Python code (uncaught
exceptions) is modelled with `Option`.
-/

namespace AppleHealth

/-- Python strings, modelled as lists of characters. -/
abbrev Str := List Char

/-! ### Python `str.replace`

`s.replace(old, new)` scans `s` left to right and replaces every
non-overlapping occurrence of `old` by `new`.  The recursion is fuelled by the
length of the string so that the definition is structural and evaluates inside
the kernel.  (Python `replace` with an empty pattern inserts `new` between all
characters; the converter only ever calls `replace` with non-empty literal
patterns, and the model returns the string unchanged for an empty pattern.) -/

/-- Fuelled scan underlying `pyReplace`. -/
def replaceCore (pat rep : Str) : Nat → Str → Str
  | _, [] => []
  | 0, s => s
  | fuel + 1, c :: rest =>
    if pat ≠ [] ∧ pat.isPrefixOf (c :: rest) then
      rep ++ replaceCore pat rep fuel (rest.drop (pat.length - 1))
    else
      c :: replaceCore pat rep fuel rest

/-- Python `s.replace(pat, rep)`. -/
def pyReplace (s pat rep : Str) : Str := replaceCore pat rep s.length s

theorem replaceCore_nil (pat rep : Str) (fuel : Nat) :
    replaceCore pat rep fuel [] = [] := by
  cases fuel <;> rfl

theorem replaceCore_fuel (pat rep : Str) :
    ∀ f1 f2 s, s.length ≤ f1 → s.length ≤ f2 →
      replaceCore pat rep f1 s = replaceCore pat rep f2 s := by
  intro f1
  induction f1 with
  | zero =>
    intro f2 s h1 _
    have hs : s = [] := List.eq_nil_of_length_eq_zero (Nat.le_zero.mp h1)
    subst hs
    rw [replaceCore_nil, replaceCore_nil]
  | succ f ih =>
    intro f2 s h1 h2
    cases s with
    | nil => rw [replaceCore_nil, replaceCore_nil]
    | cons c rest =>
      cases f2 with
      | zero => exact absurd h2 (by simp)
      | succ f2x =>
        simp only [replaceCore]
        have hrest : rest.length ≤ f := by simpa using h1
        have hrest2 : rest.length ≤ f2x := by simpa using h2
        have hdrop : (rest.drop (pat.length - 1)).length ≤ rest.length := by
          simp
        split
        · rw [ih f2x _ (le_trans hdrop hrest) (le_trans hdrop hrest2)]
        · rw [ih f2x _ hrest hrest2]

theorem pyReplace_cons (pat rep : Str) (c : Char) (rest : Str) :
    pyReplace (c :: rest) pat rep =
      if pat ≠ [] ∧ pat.isPrefixOf (c :: rest) then
        rep ++ pyReplace (rest.drop (pat.length - 1)) pat rep
      else
        c :: pyReplace rest pat rep := by
  show replaceCore pat rep (rest.length + 1) (c :: rest) = _
  simp only [replaceCore, pyReplace]
  split
  · rw [replaceCore_fuel pat rep rest.length (rest.drop (pat.length - 1)).length
        (rest.drop (pat.length - 1)) (by simp) le_rfl]
  · rw [replaceCore_fuel pat rep rest.length rest.length rest le_rfl le_rfl]

/-- The invisible character `\x0b` that the converter deletes. -/
def invisibleChar : Char := '\x0b'

/-- Model of `strip_invisible_character` (source lines 49-51):
`xml_string.replace("\x0b", "")`. -/
def strip_invisible_character (s : Str) : Str := pyReplace s [invisibleChar] []

theorem pyReplace_single_eq_filter (v : Char) :
    ∀ s : Str, pyReplace s [v] [] = s.filter (fun c => c ≠ v) := by
  intro s
  induction s with
  | nil => rfl
  | cons c rest ih =>
    rw [pyReplace_cons]
    by_cases h : c = v
    · subst h
      have hcond : ([c] : Str) ≠ [] ∧ ([c] : Str).isPrefixOf (c :: rest) := by
        refine ⟨by simp, ?_⟩
        simp [List.isPrefixOf]
      rw [if_pos hcond]
      simp only [List.length_singleton, Nat.sub_self, List.drop_zero, List.nil_append, ih]
      simp
    · have hcond : ¬ (([v] : Str) ≠ [] ∧ ([v] : Str).isPrefixOf (c :: rest)) := by
        rintro ⟨-, hp⟩
        simp [List.isPrefixOf] at hp
        exact h hp.symm
      rw [if_neg hcond, ih]
      simp [h]

/-! ### DTD stripping and pre-processing -/

/-- Index of the first occurrence of the substring `pat` in a string, as found
by `re.search` with a literal pattern; `none` when there is no match. -/
def findSubIdx (pat : Str) : Str → Option Nat
  | [] => if pat.isPrefixOf ([] : Str) then some 0 else none
  | c :: rest =>
    if pat.isPrefixOf (c :: rest) then some 0
    else (findSubIdx pat rest).map (· + 1)

/-- The literal regex `<!DOCTYPE` of `strip_dtd` (source line 55). -/
def doctypeTok : Str := "<!DOCTYPE".toList

/-- The literal regex `]>` of `strip_dtd` (source line 56). -/
def dtdEndTok : Str := "]>".toList

/-- Model of `strip_dtd` (source lines 54-58).  `re.search(...).span()` on a
missing match raises `AttributeError` (`None` has no attribute `span`),
modelled as `none`.  On success the result is
`xml_string[:start_strip] + xml_string[end_strip:]` where `start_strip` is the
start of the first `<!DOCTYPE` match and `end_strip` the end of the first `]>`
match. -/
def strip_dtd (s : Str) : Option Str :=
  match findSubIdx doctypeTok s, findSubIdx dtdEndTok s with
  | some i, some j => some (s.take i ++ s.drop (j + dtdEndTok.length))
  | _, _ => none

/-- Model of `pre_process` (source lines 29-46): `strip_dtd` followed by
`strip_invisible_character`. -/
def pre_process (s : Str) : Option Str :=
  (strip_dtd s).map strip_invisible_character

/-- Spec-side notion: the substring `pat` occurs in `s` at position `i`. -/
def occursAt (pat s : Str) (i : Nat) : Prop := pat.isPrefixOf (s.drop i) = true

/-- Spec-side notion: position `i` is the first occurrence of `pat` in `s`. -/
def firstOccurrenceAt (pat s : Str) (i : Nat) : Prop :=
  occursAt pat s i ∧ ∀ k, k < i → ¬ occursAt pat s k

instance occursAtDecidable (pat s : Str) (i : Nat) : Decidable (occursAt pat s i) :=
  decidable_of_iff (pat.isPrefixOf (s.drop i) = true) Iff.rfl

instance firstOccurrenceAtDecidable (pat s : Str) (i : Nat) :
    Decidable (firstOccurrenceAt pat s i) :=
  decidable_of_iff (occursAt pat s i ∧ ∀ k, k < i → ¬ occursAt pat s k) Iff.rfl

theorem findSubIdx_some {pat : Str} :
    ∀ {s : Str} {i : Nat}, findSubIdx pat s = some i → firstOccurrenceAt pat s i := by
  intro s
  induction s with
  | nil =>
    intro i h
    simp only [findSubIdx] at h
    split at h
    · cases h
      refine ⟨?_, fun k hk => absurd hk (Nat.not_lt_zero k)⟩
      simp only [occursAt, List.drop_nil]
      assumption
    · cases h
  | cons c rest ih =>
    intro i h
    simp only [findSubIdx] at h
    split at h
    · cases h
      refine ⟨?_, fun k hk => absurd hk (Nat.not_lt_zero k)⟩
      simp only [occursAt, List.drop_zero]
      assumption
    · rename_i hpre
      rcases Option.map_eq_some'.mp h with ⟨i0, hi0, rfl⟩
      rcases ih hi0 with ⟨hocc, hmin⟩
      refine ⟨by simpa only [occursAt, List.drop_succ_cons] using hocc, ?_⟩
      intro k hk
      cases k with
      | zero =>
        simp only [occursAt, List.drop_zero]
        simpa using hpre
      | succ k0 =>
        have : k0 < i0 := Nat.lt_of_succ_lt_succ hk
        simpa only [occursAt, List.drop_succ_cons] using hmin k0 this

theorem findSubIdx_none {pat : Str} :
    ∀ {s : Str}, findSubIdx pat s = none → ∀ i, ¬ occursAt pat s i := by
  intro s
  induction s with
  | nil =>
    intro h i
    simp only [findSubIdx] at h
    split at h
    · cases h
    · intro hocc
      rename_i hpre
      exact hpre (by simpa only [occursAt, List.drop_nil] using hocc)
  | cons c rest ih =>
    intro h i
    simp only [findSubIdx] at h
    split at h
    · cases h
    · rename_i hpre
      have hrest : findSubIdx pat rest = none := by
        cases hr : findSubIdx pat rest with
        | none => rfl
        | some v => rw [hr] at h; cases h
      intro hocc
      cases i with
      | zero => exact hpre (by simpa only [occursAt, List.drop_zero] using hocc)
      | succ i0 =>
        exact ih hrest i0 (by simpa only [occursAt, List.drop_succ_cons] using hocc)

theorem firstOccurrenceAt_findSubIdx {pat s : Str} {i : Nat}
    (h : firstOccurrenceAt pat s i) : findSubIdx pat s = some i := by
  cases hf : findSubIdx pat s with
  | none => exact absurd h.1 (findSubIdx_none hf i)
  | some i2 =>
    rcases findSubIdx_some hf with ⟨hocc2, hmin2⟩
    rcases h with ⟨hocc, hmin⟩
    rcases Nat.lt_trichotomy i i2 with hlt | heq | hgt
    · exact absurd hocc (hmin2 i hlt)
    · rw [heq]
    · exact absurd hocc2 (hmin i2 hgt)

/-- Claim C10: `strip_invisible_character` is idempotent and its output never
contains the character `\x0b`. -/
theorem claim_C10_strip_invisible_idempotent (s : Str) :
    strip_invisible_character (strip_invisible_character s) = strip_invisible_character s
    ∧ invisibleChar ∉ strip_invisible_character s := by
  have hf : ∀ t : Str, strip_invisible_character t = t.filter (fun c => c ≠ invisibleChar) :=
    fun t => pyReplace_single_eq_filter invisibleChar t
  constructor
  · simp only [hf, List.filter_filter]
    simp
  · rw [hf]
    simp

/-- Claim C7: `strip_dtd` (and hence `pre_process`) fails exactly when the
input contains no `<!DOCTYPE` occurrence or no `]>` occurrence; when both
occur it returns normally. -/
theorem claim_C7_strip_dtd_failure (s : Str) :
    ((strip_dtd s).isSome ↔ (∃ i, occursAt doctypeTok s i) ∧ (∃ j, occursAt dtdEndTok s j))
    ∧ (pre_process s).isSome = (strip_dtd s).isSome := by
  constructor
  · constructor
    · intro h
      cases hd : findSubIdx doctypeTok s with
      | none => simp [strip_dtd, hd] at h
      | some i =>
        cases he : findSubIdx dtdEndTok s with
        | none => simp [strip_dtd, hd, he] at h
        | some j => exact ⟨⟨i, (findSubIdx_some hd).1⟩, ⟨j, (findSubIdx_some he).1⟩⟩
    · rintro ⟨⟨i, hi⟩, ⟨j, hj⟩⟩
      cases hd : findSubIdx doctypeTok s with
      | none => exact absurd hi (findSubIdx_none hd i)
      | some i2 =>
        cases he : findSubIdx dtdEndTok s with
        | none => exact absurd hj (findSubIdx_none he j)
        | some j2 => simp [strip_dtd, hd, he]
  · unfold pre_process
    cases strip_dtd s <;> rfl

/-- Claim C5: when the input contains both markers, `pre_process` returns the
substring before the first `<!DOCTYPE` occurrence concatenated with the
substring after the end of the first `]>` occurrence, with every `\x0b`
character deleted from the result. -/
theorem claim_C5_pre_process (s : Str) (i j : Nat)
    (hd : firstOccurrenceAt doctypeTok s i) (he : firstOccurrenceAt dtdEndTok s j) :
    pre_process s = some ((s.take i ++ s.drop (j + 2)).filter (fun c => c ≠ invisibleChar)) := by
  have h1 := firstOccurrenceAt_findSubIdx hd
  have h2 := firstOccurrenceAt_findSubIdx he
  have hlen : dtdEndTok.length = 2 := rfl
  simp [pre_process, strip_dtd, h1, h2, hlen, strip_invisible_character,
    pyReplace_single_eq_filter]

/-- Concrete input exercising `pre_process`: a DTD block followed by text with
one `\x0b` character. -/
def dtdSample : Str := "<!DOCTYPE h]>a\x0bb".toList

theorem claim_C5_witness :
    firstOccurrenceAt doctypeTok dtdSample 0 ∧ firstOccurrenceAt dtdEndTok dtdSample 11
    ∧ pre_process dtdSample = some ("ab".toList) := by
  refine ⟨by decide, by decide, ?_⟩
  rw [claim_C5_pre_process dtdSample 0 11 (by decide) (by decide)]
  decide

/-! ### XML records and flattening -/

/-- Nested metadata element: the converter only uses
`list(metadata_entry.attrib.values())`, so the model keeps exactly that value
list. -/
structure MetaEntry where
  attribValues : List Str
deriving DecidableEq

/-- Top-level record element of the export tree: its attribute dictionary
(`child.attrib`, insertion-ordered) and its nested metadata entries. -/
structure XmlRecord where
  attrib : List (Str × Str)
  metadataEntries : List MetaEntry
deriving DecidableEq

/-- Python `dict.update` with a single key: an existing key keeps its position
and receives the new value, a new key is appended at the end. -/
def dictUpdate (d : List (Str × Str)) (k v : Str) : List (Str × Str) :=
  if d.any (fun p => p.1 == k) then
    d.map (fun p => if p.1 == k then (k, v) else p)
  else d ++ [(k, v)]

/-- Model of the per-record loop of `xml_to_csv` (source lines 73-81): each
metadata entry with exactly two attribute values updates the record
dictionary with `{values[0]: values[1]}`; other entries are skipped. -/
def flattenRecord (r : XmlRecord) : List (Str × Str) :=
  r.metadataEntries.foldl
    (fun acc e =>
      match e.attribValues with
      | [k, v] => dictUpdate acc k v
      | _ => acc)
    r.attrib

/-- Table cell: `none` models a pandas `NaN`. -/
abbrev Cell := Option Str

/-- Positional table row. -/
abbrev TableRow := List Cell

/-- Model of a pandas `DataFrame`: column labels plus positional rows. -/
structure DF where
  cols : List Str
  rows : List TableRow
deriving DecidableEq

/-- Column labels of `pd.DataFrame(list_of_dicts)`: the union of the keys of
the dictionaries, in order of first appearance. -/
def dfColumns (dicts : List (List (Str × Str))) : List Str :=
  (dicts.map (fun d => d.map Prod.fst)).flatten.foldl
    (fun acc k => if acc.contains k then acc else acc ++ [k]) []

/-- Row built by `pd.DataFrame(list_of_dicts)` for one dictionary: one cell
per column, `NaN` for keys the dictionary lacks. -/
def rowOfDict (cols : List Str) (d : List (Str × Str)) : TableRow :=
  cols.map (fun c => d.lookup c)

/-- Model of `pd.DataFrame(attribute_list)` (source line 83). -/
def pdDataFrame (dicts : List (List (Str × Str))) : DF :=
  ⟨dfColumns dicts, dicts.map (rowOfDict (dfColumns dicts))⟩

/-- Flattening stage of `xml_to_csv` (source lines 71-83): one dictionary per
top-level record, then the data frame built from them. -/
def flatTable (tree : List XmlRecord) : DF :=
  pdDataFrame (tree.map flattenRecord)

theorem lookup_eq_none_iff (d : List (Str × Str)) (k : Str) :
    d.lookup k = none ↔ ∀ p ∈ d, p.1 ≠ k := by
  induction d with
  | nil => simp
  | cons q rest ih =>
    obtain ⟨a, b⟩ := q
    by_cases h : k = a
    · subst h
      simp [List.lookup]
    · have hb : (k == a) = false := by simp [h]
      simp only [List.lookup, hb, List.mem_cons, forall_eq_or_imp, ih]
      constructor
      · intro hr
        exact ⟨fun he => h he.symm, hr⟩
      · intro hr
        exact hr.2

theorem flatTable_cell (tree : List XmlRecord) (i j : Nat) (hi : i < tree.length)
    (hj : j < (flatTable tree).cols.length) :
    ((flatTable tree).rows.getD i []).getD j none
      = (flattenRecord (tree.getD i ⟨[], []⟩)).lookup ((flatTable tree).cols.getD j []) := by
  unfold flatTable pdDataFrame at *
  have h1 : i <
      ((tree.map flattenRecord).map (rowOfDict (dfColumns (tree.map flattenRecord)))).length := by
    simpa using hi
  rw [List.getD_eq_getElem _ _ h1, List.getElem_map]
  unfold rowOfDict
  have hj2 : j < (dfColumns (tree.map flattenRecord)).length := hj
  rw [List.getD_eq_getElem _ _ (by simpa using hj2), List.getElem_map,
    List.getD_eq_getElem _ _ hj2]
  rw [List.getD_eq_getElem _ _ hi]
  simp only [List.getElem_map]

/-- Claim C1: the flattening stage of `xml_to_csv` produces exactly one row
per top-level record, in document order; each row ranges over the whole
column set (the table is rectangular); the cell of row `i` at column `c` is
the lookup of `c` in record `i`'s attribute map merged with its metadata
entries, and is empty exactly when that merged dictionary has no key `c`. -/
theorem claim_C1_flatten_rectangular (tree : List XmlRecord) :
    (flatTable tree).rows.length = tree.length
    ∧ (∀ row ∈ (flatTable tree).rows, row.length = (flatTable tree).cols.length)
    ∧ (∀ i, i < tree.length → ∀ j, j < (flatTable tree).cols.length →
        ((flatTable tree).rows.getD i []).getD j none
          = (flattenRecord (tree.getD i ⟨[], []⟩)).lookup ((flatTable tree).cols.getD j []))
    ∧ (∀ i, i < tree.length → ∀ j, j < (flatTable tree).cols.length →
        (((flatTable tree).rows.getD i []).getD j none = none
          ↔ ∀ p ∈ flattenRecord (tree.getD i ⟨[], []⟩),
              p.1 ≠ (flatTable tree).cols.getD j [])) := by
  refine ⟨?_, ?_, ?_, ?_⟩
  · simp [flatTable, pdDataFrame]
  · intro row hrow
    simp only [flatTable, pdDataFrame, List.mem_map] at hrow
    obtain ⟨d, hd, rfl⟩ := hrow
    simp [rowOfDict, flatTable, pdDataFrame]
  · intro i hi j hj
    exact flatTable_cell tree i j hi hj
  · intro i hi j hj
    rw [flatTable_cell tree i j hi hj]
    exact lookup_eq_none_iff _ _

/-- Concrete two-record tree exercising the flattening stage. -/
def sampleTree : List XmlRecord :=
  [⟨[("type".toList, "HKQuantityTypeIdentifierHeartRate".toList),
     ("startDate".toList, "2023-05-01".toList)],
    [⟨["k1".toList, "v1".toList]⟩]⟩,
   ⟨[("type".toList, "HKCategoryTypeIdentifierSleepAnalysis".toList),
     ("unit".toList, "min".toList),
     ("startDate".toList, "2022-01-01".toList)], []⟩]

theorem claim_C1_witness :
    ((flatTable sampleTree).rows.getD 0 []).getD 0 none
      = (flattenRecord (sampleTree.getD 0 ⟨[], []⟩)).lookup
          ((flatTable sampleTree).cols.getD 0 []) :=
  (claim_C1_flatten_rectangular sampleTree).2.2.1 0 (by decide) 0 (by decide)

/-! ### Overwrite semantics of the metadata merge (claim C6) -/

/-- Key-value pairs contributed by the metadata entries: exactly the entries
with two attribute values, in document order. -/
def metaPairs (entries : List MetaEntry) : List (Str × Str) :=
  entries.filterMap (fun e =>
    match e.attribValues with
    | [k, v] => some (k, v)
    | _ => none)

theorem lookup_map_update (d : List (Str × Str)) (k v k2 : Str) :
    (d.map (fun p => if p.1 == k then (k, v) else p)).lookup k2
      = if k2 = k then (if d.any (fun p => p.1 == k) then some v else none)
        else d.lookup k2 := by
  induction d with
  | nil => by_cases h : k2 = k <;> simp [h, List.lookup]
  | cons q rest ih =>
    obtain ⟨a, b⟩ := q
    simp only [List.map_cons]
    by_cases ha : a = k
    · subst ha
      have hhead : (if ((a, b) : Str × Str).1 == a then (a, v) else (a, b)) = (a, v) := by
        simp
      rw [hhead]
      by_cases hk : k2 = a
      · subst hk
        simp [List.lookup]
      · have hb : (k2 == a) = false := by simp [hk]
        simp only [List.lookup, hb, ih]
        simp [hk, List.lookup, hb]
    · have hab : (a == k) = false := by simp [ha]
      have hhead : (if ((a, b) : Str × Str).1 == k then (k, v) else (a, b)) = (a, b) := by
        simp [hab]
      rw [hhead]
      by_cases hk : k2 = a
      · have hb : (k2 == a) = true := by simp [hk]
        have hkk : ¬ k2 = k := fun h => ha (hk.symm.trans h)
        simp only [List.lookup, hb]
        simp [hkk, List.lookup, hb]
      · have hb : (k2 == a) = false := by simp [hk]
        simp only [List.lookup, hb, ih]
        by_cases hkk : k2 = k
        · have hany : (((a, b) :: rest).any fun p => p.1 == k) = rest.any (fun p => p.1 == k) := by
            simp [hab]
          simp only [hkk, List.lookup, hb]
          rw [hany]
        · simp [hkk, List.lookup, hb]

theorem lookup_append (d1 d2 : List (Str × Str)) (k : Str) :
    (d1 ++ d2).lookup k
      = match d1.lookup k with
        | some v => some v
        | none => d2.lookup k := by
  induction d1 with
  | nil => simp [List.lookup]
  | cons q rest ih =>
    obtain ⟨a, b⟩ := q
    by_cases h : k = a
    · subst h
      simp [List.lookup]
    · have hb : (k == a) = false := by simp [h]
      simp [List.lookup, hb, ih]

theorem lookup_dictUpdate (d : List (Str × Str)) (k v k2 : Str) :
    (dictUpdate d k v).lookup k2 = if k2 = k then some v else d.lookup k2 := by
  unfold dictUpdate
  by_cases hany : d.any (fun p => p.1 == k) = true
  · rw [if_pos hany, lookup_map_update]
    by_cases hk : k2 = k <;> simp [hk, hany]
  · rw [if_neg hany, lookup_append]
    by_cases hk : k2 = k
    · subst hk
      have hnone : d.lookup k2 = none := by
        rw [lookup_eq_none_iff]
        intro p hp hpk
        exact hany (List.any_eq_true.mpr ⟨p, hp, by simp [hpk]⟩)
      simp [hnone, List.lookup]
    · have hb : (k2 == k) = false := by simp [hk]
      cases hl : d.lookup k2 <;> simp [hl, List.lookup, hb, hk]

theorem flattenRecord_eq_foldl (a : List (Str × Str)) (ms : List MetaEntry) :
    flattenRecord ⟨a, ms⟩ = (metaPairs ms).foldl (fun acc p => dictUpdate acc p.1 p.2) a := by
  induction ms generalizing a with
  | nil => rfl
  | cons e rest ih =>
    obtain ⟨vals⟩ := e
    match vals with
    | [] => simpa [flattenRecord, metaPairs] using ih a
    | [k] => simpa [flattenRecord, metaPairs] using ih a
    | [k, v] =>
      simp only [flattenRecord, metaPairs, List.foldl_cons, List.filterMap_cons] at *
      exact ih (dictUpdate a k v)
    | k :: v :: w :: t => simpa [flattenRecord, metaPairs] using ih a

theorem metaPairs_filter (ms : List MetaEntry) :
    metaPairs (ms.filter (fun e => e.attribValues.length == 2)) = metaPairs ms := by
  induction ms with
  | nil => rfl
  | cons e rest ih =>
    obtain ⟨vals⟩ := e
    match vals with
    | [] => simpa [metaPairs, List.filter_cons] using ih
    | [k] => simpa [metaPairs, List.filter_cons] using ih
    | [k, v] => simpa [metaPairs, List.filter_cons] using ih
    | k :: v :: w :: t => simpa [metaPairs, List.filter_cons] using ih

theorem foldl_dictUpdate_lookup (k : Str) :
    ∀ (pairs : List (Str × Str)) (acc : List (Str × Str)),
      ((pairs.foldl (fun acc p => dictUpdate acc p.1 p.2) acc).lookup k)
        = match pairs.reverse.find? (fun p => p.1 == k) with
          | some p => some p.2
          | none => acc.lookup k := by
  intro pairs
  induction pairs with
  | nil => intro acc; simp
  | cons p ps ih =>
    intro acc
    rw [List.foldl_cons, ih, List.reverse_cons, List.find?_append]
    cases hf : ps.reverse.find? (fun q => q.1 == k) with
    | some q => simp [hf]
    | none =>
      by_cases hk : p.1 = k
      · simp [hf, List.find?, hk, lookup_dictUpdate]
      · have hb : (p.1 == k) = false := by simp [hk]
        have hkk : ¬ k = p.1 := fun h => hk h.symm
        simp [hf, List.find?, hb, lookup_dictUpdate, hkk]

/-- Claim C6: in the flat row of a record, a two-valued metadata entry whose
key names an existing attribute (or an earlier metadata key) overwrites it,
the last entry with a given key winning, and entries whose attribute list
does not have exactly two values contribute nothing. -/
theorem claim_C6_metadata_overwrite (a : List (Str × Str)) (ms : List MetaEntry) (k : Str) :
    ((flattenRecord ⟨a, ms⟩).lookup k
      = match (metaPairs ms).reverse.find? (fun p => p.1 == k) with
        | some p => some p.2
        | none => a.lookup k)
    ∧ flattenRecord ⟨a, ms⟩
        = flattenRecord ⟨a, ms.filter (fun e => e.attribValues.length == 2)⟩ := by
  constructor
  · rw [flattenRecord_eq_foldl, foldl_dictUpdate_lookup]
  · rw [flattenRecord_eq_foldl, flattenRecord_eq_foldl, metaPairs_filter]

/-! ### Identifier-prefix stripping stage (source lines 85-90) -/

/-- The literal pattern of `str.replace` on line 87. -/
def quantityTok : Str := "HKQuantityTypeIdentifier".toList

/-- The literal pattern of `str.replace` on line 88. -/
def categoryTok : Str := "HKCategoryTypeIdentifier".toList

/-- The literal pattern of `str.replace` on line 90. -/
def characteristicTok : Str := "HKCharacteristicTypeIdentifier".toList

/-- Transformation applied to each value of the `type` column (source lines
87-88): pandas `.str.replace` with a plain-text pattern removes every
occurrence, first of the quantity identifier, then of the category
identifier. -/
def stripTypeValue (v : Str) : Str :=
  pyReplace (pyReplace v quantityTok []) categoryTok []

/-- Transformation applied by lines 89-90 to each column label. -/
def stripColName (c : Str) : Str := pyReplace c characteristicTok []

/-- The `type` column label. -/
def typeColName : Str := "type".toList

/-- Position of the first column with a given label, as pandas locates a
column label in an index. -/
def colIdx (c : Str) : List Str → Option Nat
  | [] => none
  | d :: rest =>
    match d == c with
    | true => some 0
    | false => (colIdx c rest).map (· + 1)

/-- Replace cell `j` of a row by `f` of it; missing cells stay missing. -/
def mapCellAt (f : Str → Str) : Nat → TableRow → TableRow
  | _, [] => []
  | 0, cell :: rest => cell.map f :: rest
  | j + 1, cell :: rest => cell :: mapCellAt f j rest

/-- Model of `health_df.type = health_df.type.str.replace(...)`: apply `f` to
every cell of the column labelled `c` (NaN cells stay NaN).  With no such
column the real code raises `AttributeError`; `xml_to_csv` below guards that
case. -/
def mapColumn (df : DF) (c : Str) (f : Str → Str) : DF :=
  match colIdx c df.cols with
  | some j => ⟨df.cols, df.rows.map (mapCellAt f j)⟩
  | none => df

/-- Model of `health_df.columns = health_df.columns.str.replace(...)` (source
lines 89-90). -/
def renameCols (df : DF) : DF := ⟨df.cols.map stripColName, df.rows⟩

/-! ### Column reordering stage (source lines 92-117) -/

/-- Loop temp-basal metadata column (source line 103). -/
def loopTempBasalCol : Str :=
  "com.loopkit.InsulinKit.MetadataKeyProgrammedTempBasalRate".toList

/-- Loop scheduled-basal metadata column (source line 107). -/
def loopSchedBasalCol : Str :=
  "com.loopkit.InsulinKit.MetadataKeyScheduledBasalRate".toList

/-- CarbKit absorption-time metadata column (source line 111). -/
def carbAbsorptionCol : Str :=
  "com.loudnate.CarbKit.HKMetadataKey.AbsorptionTimeMinutes".toList

/-- The seven hardcoded `shifted_cols` (source lines 94-100). -/
def baseShiftedCols : List Str :=
  ["type".toList, "sourceName".toList, "value".toList, "unit".toList,
   "startDate".toList, "endDate".toList, "creationDate".toList]

/-- Model of `shifted_cols` after the three conditional appends (source lines
94-113). -/
def shiftedCols (originalCols : List Str) : List Str :=
  let s1 := baseShiftedCols
  let s2 := if loopTempBasalCol ∈ originalCols then s1 ++ [loopTempBasalCol] else s1
  let s3 := if loopSchedBasalCol ∈ originalCols then s2 ++ [loopSchedBasalCol] else s2
  if carbAbsorptionCol ∈ originalCols then s3 ++ [carbAbsorptionCol] else s3

/-- Model of `remaining_cols = list(set(original_cols) - set(shifted_cols))`
(source line 115).  Python set iteration order is unspecified (it depends on
string hashing); the model enumerates the set difference in original column
order. -/
def remainingCols (originalCols : List Str) : List Str :=
  originalCols.filter (fun c => c ∉ shiftedCols originalCols)

/-- Model of `DataFrame.reindex(labels=..., axis='columns')` (source line
117): labels present in the frame keep their cells, labels absent from the
frame become all-NaN columns. -/
def reindex (df : DF) (labels : List Str) : DF :=
  ⟨labels,
   df.rows.map (fun row =>
     labels.map (fun c =>
       match colIdx c df.cols with
       | some j => row.getD j none
       | none => none))⟩

/-- Column reordering stage of `xml_to_csv` (source lines 92-117). -/
def reorderStage (df : DF) : DF :=
  reindex df (shiftedCols df.cols ++ remainingCols df.cols)

/-! ### Sorting stage (source line 120) -/

/-- Strict lexicographic (code-point) comparison of Python strings. -/
def strLtB : Str → Str → Bool
  | [], [] => false
  | [], _ :: _ => true
  | _ :: _, [] => false
  | a :: as, b :: bs => if a < b then true else if b < a then false else strLtB as bs

/-- The `startDate` column label. -/
def startDateCol : Str := "startDate".toList

/-- Cell comparison realised by
`sort_values(by='startDate', ascending=False)`: descending on the values,
with NaN cells placed last (pandas default `na_position='last'`). -/
def cellLe (c1 c2 : Cell) : Bool :=
  match c1, c2 with
  | some a, some b => !(strLtB a b)
  | some _, none => true
  | none, some _ => false
  | none, none => true

/-- Row comparison: `cellLe` on the cells of column `j`. -/
def rowLe (j : Nat) (r1 r2 : TableRow) : Bool :=
  cellLe (r1.getD j none) (r2.getD j none)

/-- Sorting stage of `xml_to_csv` (source line 120).  pandas raises a
`KeyError` when the label is absent; in the pipeline the label is always
present after reindexing, so that branch is unreachable and modelled as the
identity. -/
def sortStage (df : DF) : DF :=
  match colIdx startDateCol df.cols with
  | some j => ⟨df.cols, df.rows.insertionSort (fun r1 r2 => rowLe j r1 r2 = true)⟩
  | none => df

/-- The pipeline of `xml_to_csv` before the sorting step. -/
def preSortTable (tree : List XmlRecord) : DF :=
  reorderStage (renameCols (mapColumn (flatTable tree) typeColName stripTypeValue))

/-- Model of `xml_to_csv` (source lines 61-124): flatten the records into a
frame, strip the type identifiers, rename the columns, reorder, sort.  The
model is `none` exactly where the real code raises: `health_df.type` needs a
`type` column, and `reindex` rejects duplicate column labels (which here can
only arise from the renaming step collapsing two labels). -/
def xml_to_csv (tree : List XmlRecord) : Option DF :=
  if typeColName ∈ (flatTable tree).cols
      ∧ ((flatTable tree).cols.map stripColName).Nodup then
    some (sortStage (preSortTable tree))
  else none

/-! ### Lemmas about column positions -/

theorem colIdx_eq_none (c : Str) : ∀ l : List Str, colIdx c l = none ↔ c ∉ l := by
  intro l
  induction l with
  | nil => simp [colIdx]
  | cons d rest ih =>
    by_cases h : d = c
    · subst h
      simp [colIdx]
    · have hb : (d == c) = false := by simp [h]
      simp only [colIdx, hb, Option.map_eq_none', ih, List.mem_cons, not_or]
      constructor
      · intro hr
        exact ⟨fun he => h he.symm, hr⟩
      · intro hr
        exact hr.2

theorem colIdx_of_mem {c : Str} {l : List Str} (h : c ∈ l) : ∃ n, colIdx c l = some n := by
  cases hc : colIdx c l with
  | none => exact absurd h ((colIdx_eq_none c l).mp hc)
  | some n => exact ⟨n, rfl⟩

theorem colIdx_lt {c : Str} : ∀ {l : List Str} {n : Nat}, colIdx c l = some n → n < l.length := by
  intro l
  induction l with
  | nil => intro n h; cases h
  | cons d rest ih =>
    intro n h
    simp only [colIdx] at h
    split at h
    · cases h
      simp
    · rcases Option.map_eq_some'.mp h with ⟨m, hm, rfl⟩
      have := ih hm
      simpa using this

theorem colIdx_getD {c : Str} (dflt : Str) :
    ∀ {l : List Str} {n : Nat}, colIdx c l = some n → l.getD n dflt = c := by
  intro l
  induction l with
  | nil => intro n h; cases h
  | cons d rest ih =>
    intro n h
    simp only [colIdx] at h
    split at h
    · cases h
      rename_i hd
      simpa using hd
    · rcases Option.map_eq_some'.mp h with ⟨m, hm, rfl⟩
      simpa using ih hm

theorem colIdx_append_left {c : Str} :
    ∀ {l1 : List Str} {n : Nat}, colIdx c l1 = some n →
      ∀ l2, colIdx c (l1 ++ l2) = some n := by
  intro l1
  induction l1 with
  | nil => intro n h; cases h
  | cons d rest ih =>
    intro n h l2
    rw [List.cons_append]
    cases hd : (d == c) with
    | true =>
      simp only [colIdx, hd] at h ⊢
      exact h
    | false =>
      simp only [colIdx, hd] at h ⊢
      rcases Option.map_eq_some'.mp h with ⟨m, hm, rfl⟩
      rw [ih hm l2]
      rfl

theorem colIdx_cons_self (c : Str) (l : List Str) : colIdx c (c :: l) = some 0 := by
  simp [colIdx]

theorem colIdx_map_nodup {f : Str → Str} :
    ∀ {l : List Str} {c : Str}, c ∈ l → (l.map f).Nodup →
      colIdx (f c) (l.map f) = colIdx c l := by
  intro l
  induction l with
  | nil => intro c hc; cases hc
  | cons d rest ih =>
    intro c hc hnd
    by_cases h : d = c
    · subst h
      simp [colIdx]
    · have hb : (d == c) = false := by simp [h]
      have hcr : c ∈ rest := by
        rcases List.mem_cons.mp hc with h1 | h1
        · exact absurd h1.symm h
        · exact h1
      have hfb : (f d == f c) = false := by
        cases hfe : (f d == f c) with
        | false => rfl
        | true =>
          have hfd : f d = f c := beq_iff_eq.mp hfe
          have hmem : f c ∈ rest.map f := List.mem_map_of_mem f hcr
          have hnin : f d ∉ rest.map f := (List.nodup_cons.mp (by simpa using hnd)).1
          exact absurd (hfd ▸ hmem) hnin
      simp only [List.map_cons, colIdx, hb, hfb]
      rw [ih hcr (List.nodup_cons.mp (by simpa using hnd)).2]

theorem getD_map_of_lt {α β : Type} (g : α → β) (l : List α) (m : Nat)
    (h : m < l.length) (d : α) (d2 : β) : (l.map g).getD m d2 = g (l.getD m d) := by
  rw [List.getD_eq_getElem _ _ (by simpa using h), List.getElem_map,
    List.getD_eq_getElem _ _ h]

/-! ### Lemmas about the shifted columns and the sorting order -/

theorem shiftedCols_decomp (original : List Str) :
    shiftedCols original
      = baseShiftedCols
        ++ ((if loopTempBasalCol ∈ original then [loopTempBasalCol] else [])
          ++ ((if loopSchedBasalCol ∈ original then [loopSchedBasalCol] else [])
            ++ (if carbAbsorptionCol ∈ original then [carbAbsorptionCol] else []))) := by
  unfold shiftedCols
  by_cases h1 : loopTempBasalCol ∈ original <;>
    by_cases h2 : loopSchedBasalCol ∈ original <;>
      by_cases h3 : carbAbsorptionCol ∈ original <;>
        simp [h1, h2, h3]

theorem shiftedCols_nodup (original : List Str) : (shiftedCols original).Nodup := by
  rw [shiftedCols_decomp]
  by_cases h1 : loopTempBasalCol ∈ original <;>
    by_cases h2 : loopSchedBasalCol ∈ original <;>
      by_cases h3 : carbAbsorptionCol ∈ original <;>
        simp only [h1, h2, h3, if_true, if_false, eq_self_iff_true] <;> decide

theorem mem_shiftedCols {c : Str} {original : List Str} (h : c ∈ shiftedCols original) :
    c ∈ baseShiftedCols ∨ c ∈ original := by
  rw [shiftedCols_decomp] at h
  rcases List.mem_append.mp h with h | h
  · exact Or.inl h
  · right
    rcases List.mem_append.mp h with h | h
    · by_cases h1 : loopTempBasalCol ∈ original
      · rw [if_pos h1] at h
        rw [List.mem_singleton.mp h]
        exact h1
      · rw [if_neg h1] at h
        cases h
    · rcases List.mem_append.mp h with h | h
      · by_cases h2 : loopSchedBasalCol ∈ original
        · rw [if_pos h2] at h
          rw [List.mem_singleton.mp h]
          exact h2
        · rw [if_neg h2] at h
          cases h
      · by_cases h3 : carbAbsorptionCol ∈ original
        · rw [if_pos h3] at h
          rw [List.mem_singleton.mp h]
          exact h3
        · rw [if_neg h3] at h
          cases h

theorem reorder_startDate_idx (original rest : List Str) :
    colIdx startDateCol (shiftedCols original ++ rest) = some 4 := by
  rw [shiftedCols_decomp, List.append_assoc]
  exact colIdx_append_left (by decide) _

theorem sortStage_cols (df : DF) : (sortStage df).cols = df.cols := by
  unfold sortStage
  cases colIdx startDateCol df.cols <;> rfl

theorem sortStage_rows_perm (df : DF) : (sortStage df).rows.Perm df.rows := by
  unfold sortStage
  cases h : colIdx startDateCol df.cols with
  | none => exact List.Perm.refl _
  | some j => exact List.perm_insertionSort _ _

theorem strLtB_irrefl : ∀ a : Str, strLtB a a = false := by
  intro a
  induction a with
  | nil => rfl
  | cons c cs ih => simp [strLtB, ih]

theorem strLtB_trans : ∀ a b c : Str, strLtB a b = true → strLtB b c = true →
    strLtB a c = true := by
  intro a
  induction a with
  | nil =>
    intro b c hab hbc
    cases b with
    | nil => simp [strLtB] at hab
    | cons y ys =>
      cases c with
      | nil => simp [strLtB] at hbc
      | cons z zs => simp [strLtB]
  | cons x xs ih =>
    intro b c hab hbc
    cases b with
    | nil => simp [strLtB] at hab
    | cons y ys =>
      cases c with
      | nil => simp [strLtB] at hbc
      | cons z zs =>
        simp only [strLtB] at hab hbc ⊢
        by_cases hxy : x < y
        · by_cases hyz : y < z
          · simp [lt_trans hxy hyz]
          · rw [if_neg hyz] at hbc
            by_cases hzy : z < y
            · rw [if_pos hzy] at hbc
              cases hbc
            · rw [if_neg hzy] at hbc
              have hyz2 : y = z := le_antisymm (not_lt.mp hzy) (not_lt.mp hyz)
              have hxz : x < z := hyz2 ▸ hxy
              simp [hxz]
        · rw [if_neg hxy] at hab
          by_cases hyx : y < x
          · rw [if_pos hyx] at hab
            cases hab
          · rw [if_neg hyx] at hab
            have hxy2 : x = y := le_antisymm (not_lt.mp hyx) (not_lt.mp hxy)
            subst hxy2
            by_cases hxz : x < z
            · simp [hxz]
            · rw [if_neg hxz] at hbc ⊢
              by_cases hzx : z < x
              · rw [if_pos hzx] at hbc
                cases hbc
              · rw [if_neg hzx] at hbc ⊢
                exact ih ys zs hab hbc

theorem strLtB_eq_of_both_false : ∀ a b : Str, strLtB a b = false → strLtB b a = false →
    a = b := by
  intro a
  induction a with
  | nil =>
    intro b hab hba
    cases b with
    | nil => rfl
    | cons y ys => simp [strLtB] at hab
  | cons x xs ih =>
    intro b hab hba
    cases b with
    | nil => simp [strLtB] at hba
    | cons y ys =>
      simp only [strLtB] at hab hba
      by_cases hxy : x < y
      · rw [if_pos hxy] at hab
        cases hab
      · by_cases hyx : y < x
        · rw [if_pos hyx] at hba
          cases hba
        · rw [if_neg hxy, if_neg hyx] at hab
          rw [if_neg hyx, if_neg hxy] at hba
          have hxy2 : x = y := le_antisymm (not_lt.mp hyx) (not_lt.mp hxy)
          rw [hxy2, ih ys hab hba]

theorem cellLe_total (c1 c2 : Cell) : cellLe c1 c2 = true ∨ cellLe c2 c1 = true := by
  cases c1 with
  | none =>
    cases c2 with
    | none => left; rfl
    | some b => right; rfl
  | some a =>
    cases c2 with
    | none => left; rfl
    | some b =>
      cases hab : strLtB a b with
      | false => left; simp [cellLe, hab]
      | true =>
        right
        cases hba : strLtB b a with
        | false => simp [cellLe, hba]
        | true =>
          have hcontra := strLtB_trans a b a hab hba
          rw [strLtB_irrefl] at hcontra
          cases hcontra

theorem cellLe_trans (c1 c2 c3 : Cell) (h1 : cellLe c1 c2 = true)
    (h2 : cellLe c2 c3 = true) : cellLe c1 c3 = true := by
  cases c1 with
  | none =>
    cases c2 with
    | none => exact h2
    | some b =>
      cases c3 with
      | none => rfl
      | some c => simp [cellLe] at h1
  | some a =>
    cases c3 with
    | none => rfl
    | some c =>
      cases c2 with
      | none => simp [cellLe] at h2
      | some b =>
        have hab : strLtB a b = false := by simpa [cellLe] using h1
        have hbc : strLtB b c = false := by simpa [cellLe] using h2
        simp only [cellLe, Bool.not_eq_true']
        cases hac : strLtB a c with
        | false => rfl
        | true =>
          exfalso
          cases hba : strLtB b a with
          | false =>
            have hEq : a = b := strLtB_eq_of_both_false a b hab hba
            subst hEq
            rw [hac] at hbc
            cases hbc
          | true =>
            have hcontra : strLtB b c = true := strLtB_trans b a c hba hac
            rw [hbc] at hcontra
            cases hcontra

theorem rowLe_total (j : Nat) (r1 r2 : TableRow) :
    rowLe j r1 r2 = true ∨ rowLe j r2 r1 = true :=
  cellLe_total _ _

theorem rowLe_trans (j : Nat) (r1 r2 r3 : TableRow) (h1 : rowLe j r1 r2 = true)
    (h2 : rowLe j r2 r3 = true) : rowLe j r1 r3 = true :=
  cellLe_trans _ _ _ h1 h2

instance rowLeIsTotal (j : Nat) : IsTotal TableRow (fun r1 r2 => rowLe j r1 r2 = true) :=
  ⟨rowLe_total j⟩

instance rowLeIsTrans (j : Nat) : IsTrans TableRow (fun r1 r2 => rowLe j r1 r2 = true) :=
  ⟨fun r1 r2 r3 => rowLe_trans j r1 r2 r3⟩

theorem reorderStage_cols (df : DF) :
    (reorderStage df).cols = shiftedCols df.cols ++ remainingCols df.cols := rfl

theorem renameCols_cols (df : DF) : (renameCols df).cols = df.cols.map stripColName := rfl

theorem mapColumn_cols (df : DF) (c : Str) (f : Str → Str) :
    (mapColumn df c f).cols = df.cols := by
  unfold mapColumn
  cases colIdx c df.cols <;> rfl

/-- Claim C4: after flattening, identifier stripping and column reordering,
`xml_to_csv` sorts the rows by the `startDate` column in descending order
(missing dates last); the sorted rows are a permutation of the pre-sort rows,
so every flattened row appears exactly once, and the columns are unchanged. -/
theorem claim_C4_sorted (tree : List XmlRecord) (df : DF)
    (h : xml_to_csv tree = some df) :
    df.cols = (preSortTable tree).cols
    ∧ df.rows.Perm (preSortTable tree).rows
    ∧ ∃ j, colIdx startDateCol df.cols = some j
        ∧ List.Sorted (fun r1 r2 => rowLe j r1 r2 = true) df.rows := by
  unfold xml_to_csv at h
  split at h
  · injection h with h2
    subst h2
    have hidx : colIdx startDateCol (preSortTable tree).cols = some 4 := by
      rw [preSortTable, reorderStage_cols]
      exact reorder_startDate_idx _ _
    refine ⟨sortStage_cols _, sortStage_rows_perm _, 4, ?_, ?_⟩
    · rw [sortStage_cols]
      exact hidx
    · show List.Sorted _ (sortStage (preSortTable tree)).rows
      unfold sortStage
      rw [hidx]
      exact List.sorted_insertionSort _ _
  · cases h

theorem claim_C4_witness :
    ((xml_to_csv sampleTree).getD ⟨[], []⟩).rows.Perm (preSortTable sampleTree).rows :=
  (claim_C4_sorted sampleTree ((xml_to_csv sampleTree).getD ⟨[], []⟩) (by decide)).2.1

/-! ### The column reordering step (claim C3) -/

/-- Cell of row `i` at the column labelled `c`; `none` outside the table. -/
def cellByName (df : DF) (i : Nat) (c : Str) : Cell :=
  match colIdx c df.cols with
  | some j => (df.rows.getD i []).getD j none
  | none => none

theorem cellByName_reindex (df : DF) (labels : List Str) (i : Nat) (c : Str)
    (hc : c ∈ labels) :
    cellByName (reindex df labels) i c
      = match colIdx c df.cols with
        | some j => (df.rows.getD i []).getD j none
        | none => none := by
  obtain ⟨m, hm⟩ := colIdx_of_mem hc
  have hl : cellByName (reindex df labels) i c
      = ((reindex df labels).rows.getD i []).getD m none := by
    unfold cellByName
    rw [show (reindex df labels).cols = labels from rfl, hm]
  rw [hl]
  by_cases hi : i < df.rows.length
  · have hrows : (reindex df labels).rows.getD i []
        = labels.map (fun c2 =>
            match colIdx c2 df.cols with
            | some j => (df.rows.getD i []).getD j none
            | none => none) :=
      getD_map_of_lt _ _ i hi [] []
    rw [hrows, getD_map_of_lt _ _ _ (colIdx_lt hm) [] none, colIdx_getD [] hm]
  · have hlen : df.rows.length ≤ i := not_lt.mp hi
    have h1 : (reindex df labels).rows.getD i [] = [] := by
      apply List.getD_eq_default
      simpa [reindex] using hlen
    have h2 : df.rows.getD i [] = [] := List.getD_eq_default _ _ hlen
    rw [h1, h2]
    cases colIdx c df.cols <;> simp

/-- Claim C3 (amended): the reordering step keeps every input column exactly
once (the output labels are duplicate-free and contain every input label),
rearranged as the seven hardcoded columns (plus the loopkit/carbkit columns
when present) followed by the set difference of the remaining input columns;
cells of input columns are unchanged; but hardcoded columns missing from the
input are added as all-empty columns rather than the output columns being
exactly the input columns. -/
theorem claim_C3_reorder (df : DF) (hnd : df.cols.Nodup) :
    ((reorderStage df).cols = shiftedCols df.cols ++ remainingCols df.cols)
    ∧ (reorderStage df).cols.Nodup
    ∧ (∀ c ∈ df.cols, c ∈ (reorderStage df).cols)
    ∧ (∀ c ∈ (reorderStage df).cols, c ∈ df.cols ∨ c ∈ baseShiftedCols)
    ∧ (reorderStage df).rows.length = df.rows.length
    ∧ (∀ c ∈ df.cols, ∀ i, cellByName (reorderStage df) i c = cellByName df i c)
    ∧ (∀ c ∈ (reorderStage df).cols, c ∉ df.cols →
        ∀ i, cellByName (reorderStage df) i c = none) := by
  have hlabels : ∀ c ∈ df.cols, c ∈ shiftedCols df.cols ++ remainingCols df.cols := by
    intro c hc
    by_cases hs : c ∈ shiftedCols df.cols
    · exact List.mem_append.mpr (Or.inl hs)
    · refine List.mem_append.mpr (Or.inr ?_)
      unfold remainingCols
      refine List.mem_filter.mpr ⟨hc, ?_⟩
      simpa using hs
  refine ⟨rfl, ?_, ?_, ?_, ?_, ?_, ?_⟩
  · rw [reorderStage_cols]
    refine List.Nodup.append (shiftedCols_nodup df.cols) (List.Nodup.filter _ hnd) ?_
    intro c hcs hcr
    have := (List.mem_filter.mp hcr).2
    simp at this
    exact this hcs
  · intro c hc
    rw [reorderStage_cols]
    exact hlabels c hc
  · intro c hc
    rw [reorderStage_cols] at hc
    rcases List.mem_append.mp hc with h | h
    · rcases mem_shiftedCols h with h2 | h2
      · exact Or.inr h2
      · exact Or.inl h2
    · exact Or.inl (List.mem_filter.mp h).1
  · simp [reorderStage, reindex]
  · intro c hc i
    rw [show reorderStage df = reindex df (shiftedCols df.cols ++ remainingCols df.cols)
      from rfl]
    rw [cellByName_reindex df _ i c (hlabels c hc)]
    obtain ⟨j, hj⟩ := colIdx_of_mem hc
    unfold cellByName
    rw [hj]
  · intro c hc hnc i
    rw [reorderStage_cols] at hc
    rw [show reorderStage df = reindex df (shiftedCols df.cols ++ remainingCols df.cols)
      from rfl]
    rw [cellByName_reindex df _ i c hc]
    rw [(colIdx_eq_none c df.cols).mpr hnc]

/-- One-record tree whose columns lack most of the hardcoded shifted columns. -/
def missingColsTree : List XmlRecord :=
  [⟨[("type".toList, "T".toList), ("startDate".toList, "2020".toList)], []⟩]

theorem claim_C3_counterexample :
    (xml_to_csv missingColsTree).map DF.cols = some baseShiftedCols
    ∧ ("unit".toList : Str) ∉ (flatTable missingColsTree).cols
    ∧ ("unit".toList : Str) ∈ baseShiftedCols := by
  refine ⟨by decide, by decide, by decide⟩

theorem claim_C3_witness :
    cellByName (reorderStage (flatTable sampleTree)) 0 typeColName
      = cellByName (flatTable sampleTree) 0 typeColName :=
  (claim_C3_reorder (flatTable sampleTree) (by decide)).2.2.2.2.2.1 typeColName (by decide) 0

/-! ### The identifier stripping step (claim C2) -/

/-- Spec-side reading of claim C2: only a LEADING quantity or category
identifier is removed from a type value, all other text unchanged.  Used to
refute the claim as stated. -/
def stripLeadingTypeIdent (v : Str) : Str :=
  if quantityTok.isPrefixOf v then v.drop quantityTok.length
  else if categoryTok.isPrefixOf v then v.drop categoryTok.length
  else v

/-- Cells of the column labelled `type`, top to bottom. -/
def typeColumn (df : DF) : List Cell :=
  match colIdx typeColName df.cols with
  | some j => df.rows.map (fun row => row.getD j none)
  | none => []

/-- One-record tree whose type value contains the quantity identifier in the
middle rather than as a leading prefix. -/
def prefixTree : List XmlRecord :=
  [⟨[("type".toList, "abHKQuantityTypeIdentifiercd".toList),
     ("startDate".toList, "2020-01-01".toList)], []⟩]

theorem claim_C2_counterexample :
    (xml_to_csv prefixTree).map typeColumn = some [some ("abcd".toList)]
    ∧ stripLeadingTypeIdent ("abHKQuantityTypeIdentifiercd".toList)
        = "abHKQuantityTypeIdentifiercd".toList
    ∧ ("abcd".toList : Str) ≠ "abHKQuantityTypeIdentifiercd".toList :=
  ⟨by decide, by decide, by decide⟩

theorem mapCellAt_getD_self (f : Str → Str) :
    ∀ (j : Nat) (row : TableRow),
      (mapCellAt f j row).getD j none = (row.getD j none).map f := by
  intro j
  induction j with
  | zero =>
    intro row
    cases row with
    | nil => simp [mapCellAt]
    | cons cell rest => simp [mapCellAt]
  | succ n ih =>
    intro row
    cases row with
    | nil => simp [mapCellAt]
    | cons cell rest => simpa [mapCellAt] using ih rest

theorem typeColumn_mapColumn (df : DF) (f : Str → Str) (h : typeColName ∈ df.cols) :
    typeColumn (mapColumn df typeColName f) = (typeColumn df).map (Option.map f) := by
  obtain ⟨j, hj⟩ := colIdx_of_mem h
  unfold mapColumn
  rw [hj]
  unfold typeColumn
  rw [show (⟨df.cols, df.rows.map (mapCellAt f j)⟩ : DF).cols = df.cols from rfl, hj]
  show (df.rows.map (mapCellAt f j)).map (fun row => row.getD j none)
      = (df.rows.map (fun row => row.getD j none)).map (Option.map f)
  rw [List.map_map, List.map_map]
  apply List.map_congr_left
  intro row _
  exact mapCellAt_getD_self f j row

theorem typeColumn_renameCols (df : DF) (h : typeColName ∈ df.cols)
    (hnd : (df.cols.map stripColName).Nodup) :
    typeColumn (renameCols df) = typeColumn df := by
  have hstrip : stripColName typeColName = typeColName := by decide
  have hmap : colIdx typeColName (df.cols.map stripColName) = colIdx typeColName df.cols := by
    have h2 := colIdx_map_nodup (f := stripColName) h hnd
    rwa [hstrip] at h2
  unfold typeColumn renameCols
  rw [show (⟨df.cols.map stripColName, df.rows⟩ : DF).cols = df.cols.map stripColName from rfl,
    hmap]

theorem typeColumn_reorderStage (df : DF) (h : typeColName ∈ df.cols) :
    typeColumn (reorderStage df) = typeColumn df := by
  obtain ⟨j, hj⟩ := colIdx_of_mem h
  have ht : shiftedCols df.cols ++ remainingCols df.cols
      = typeColName :: (baseShiftedCols.tail
          ++ ((if loopTempBasalCol ∈ df.cols then [loopTempBasalCol] else [])
            ++ ((if loopSchedBasalCol ∈ df.cols then [loopSchedBasalCol] else [])
              ++ (if carbAbsorptionCol ∈ df.cols then [carbAbsorptionCol] else [])))
          ++ remainingCols df.cols) := by
    rw [shiftedCols_decomp]
    simp [baseShiftedCols, typeColName]
  have hidx : colIdx typeColName (reorderStage df).cols = some 0 := by
    rw [reorderStage_cols, ht]
    exact colIdx_cons_self _ _
  unfold typeColumn
  rw [hidx, hj]
  show ((df.rows.map (fun row =>
      (shiftedCols df.cols ++ remainingCols df.cols).map (fun c2 =>
        match colIdx c2 df.cols with
        | some jj => row.getD jj none
        | none => none))).map (fun row => row.getD 0 none))
    = df.rows.map (fun row => row.getD j none)
  rw [List.map_map]
  apply List.map_congr_left
  intro row _
  show ((shiftedCols df.cols ++ remainingCols df.cols).map (fun c2 =>
      match colIdx c2 df.cols with
      | some jj => row.getD jj none
      | none => none)).getD 0 none = row.getD j none
  rw [ht, List.map_cons, List.getD_cons_zero, hj]

theorem typeColumn_sortStage (df : DF) :
    (typeColumn (sortStage df)).Perm (typeColumn df) := by
  unfold typeColumn
  rw [sortStage_cols]
  cases h : colIdx typeColName df.cols with
  | none => exact List.Perm.refl _
  | some j => exact (sortStage_rows_perm df).map _

/-- Claim C2 (amended): in the table returned by `xml_to_csv`, EVERY
occurrence of `HKQuantityTypeIdentifier` and then of
`HKCategoryTypeIdentifier` — not only a leading one — is removed from each
type value, and every occurrence of `HKCharacteristicTypeIdentifier` is
removed from each column label; text other than the removed occurrences is
unchanged. -/
theorem claim_C2_stripped (tree : List XmlRecord) (df : DF)
    (h : xml_to_csv tree = some df) :
    df.cols = shiftedCols ((flatTable tree).cols.map stripColName)
        ++ remainingCols ((flatTable tree).cols.map stripColName)
    ∧ (typeColumn df).Perm
        ((typeColumn (flatTable tree)).map (Option.map stripTypeValue)) := by
  unfold xml_to_csv at h
  split at h
  · rename_i hg
    obtain ⟨htype, hnd⟩ := hg
    injection h with h2
    subst h2
    constructor
    · rw [sortStage_cols, preSortTable, reorderStage_cols, renameCols_cols, mapColumn_cols]
    · have e1 : typeColumn (mapColumn (flatTable tree) typeColName stripTypeValue)
          = (typeColumn (flatTable tree)).map (Option.map stripTypeValue) :=
        typeColumn_mapColumn _ _ htype
      have htype2 : typeColName
          ∈ (mapColumn (flatTable tree) typeColName stripTypeValue).cols := by
        rw [mapColumn_cols]
        exact htype
      have hnd2 : ((mapColumn (flatTable tree) typeColName stripTypeValue).cols.map
          stripColName).Nodup := by
        rw [mapColumn_cols]
        exact hnd
      have e2 : typeColumn (renameCols (mapColumn (flatTable tree) typeColName stripTypeValue))
          = typeColumn (mapColumn (flatTable tree) typeColName stripTypeValue) :=
        typeColumn_renameCols _ htype2 hnd2
      have htype3 : typeColName
          ∈ (renameCols (mapColumn (flatTable tree) typeColName stripTypeValue)).cols := by
        rw [renameCols_cols, mapColumn_cols]
        have hstrip : stripColName typeColName = typeColName := by decide
        exact hstrip ▸ List.mem_map_of_mem stripColName htype
      have e3 : typeColumn (reorderStage (renameCols
            (mapColumn (flatTable tree) typeColName stripTypeValue)))
          = typeColumn (renameCols (mapColumn (flatTable tree) typeColName stripTypeValue)) :=
        typeColumn_reorderStage _ htype3
      have hpre : typeColumn (preSortTable tree)
          = (typeColumn (flatTable tree)).map (Option.map stripTypeValue) := by
        rw [preSortTable, e3, e2, e1]
      exact hpre ▸ typeColumn_sortStage (preSortTable tree)
  · cases h

theorem claim_C2_witness :
    ((xml_to_csv sampleTree).getD ⟨[], []⟩).cols
      = shiftedCols ((flatTable sampleTree).cols.map stripColName)
          ++ remainingCols ((flatTable sampleTree).cols.map stripColName) :=
  (claim_C2_stripped sampleTree ((xml_to_csv sampleTree).getD ⟨[], []⟩) (by decide)).1

/-! ### File effects of a run of the program (claim C8) -/

/-- Command-line arguments of the converter (source lines 139-160).  `file`
defaults to `./Export.xml` and `output` to `.`. -/
structure Args where
  file : Str
  output : Str
  quiet : Bool
  debug : Bool
  skip : Bool
deriving DecidableEq

/-- Externally visible events of a run: console messages, file reads, file
writes (creation or overwrite), and process exit. -/
inductive Ev where
  | msg (s : Str)
  | readF (p : Str)
  | writeF (p : Str)
  | exited (code : Nat)
deriving DecidableEq

/-- The CSV path built by `save_to_csv` (source lines 131-132). -/
def save_to_csv_path (csvpath today : Str) : Str :=
  csvpath ++ "/apple_health_export_".toList ++ today ++ ".csv".toList

/-- Event trace of `save_to_csv` (source lines 127-137). -/
def save_to_csv_events (csvpath today : Str) : List Ev :=
  [Ev.msg ("Saving CSV file...".toList),
   Ev.writeF (save_to_csv_path csvpath today),
   Ev.msg ("done!".toList)]

/-- Relative name of the first PDF report (source line 350). -/
def pdf1Name : Str := "/blood_pressure_boxplots.pdf".toList

/-- Relative name of the second PDF report (source line 376). -/
def pdf2Name : Str := "/blood_pressure_charts_and_boxplots.pdf".toList

/-- Event trace of `main` (source lines 257-410), transcribed from its
control flow.  Without `--skip`, line 275 runs `sys.exit(1)`, so the
conversion block at lines 277-283 (and with it `save_to_csv`) is dead code;
with `--skip`, main reads the previously exported CSV (line 285), plots on
screen, and writes the two PDF reports (lines 350 and 376). -/
def main_events (args : Args) : List Ev :=
  (if args.debug then [Ev.msg ("Debug mode enabled".toList)] else [])
    ++ (if args.quiet then [Ev.msg ("Verbose mode disabled".toList)] else [])
    ++ (if args.output ≠ [] then
          [Ev.msg ("Output directory: ".toList ++ args.output)] else [])
    ++ (if args.file ≠ [] then [Ev.msg ("Input file: ".toList ++ args.file)] else [])
    ++ (if args.skip then
          [Ev.msg ("Skipping reading fresh data and using CSV instead".toList)]
        else
          [Ev.msg ("No input file specified".toList), Ev.exited 1])
    ++ (if args.skip then
          [Ev.readF (args.output ++ "/apple_health_export".toList ++ ".csv".toList),
           Ev.writeF (args.output ++ pdf1Name),
           Ev.writeF (args.output ++ pdf2Name)]
        else [])

/-- Paths of the files a trace writes, in order. -/
def writtenFiles (evs : List Ev) : List Str :=
  evs.filterMap (fun e =>
    match e with
    | Ev.writeF p => some p
    | _ => none)

/-- Arguments of a run with `--skip`. -/
def argsSkipEx : Args := ⟨"./Export.xml".toList, ".".toList, false, false, true⟩

/-- Arguments of a run without `--skip`. -/
def argsNoSkipEx : Args := ⟨"./Export.xml".toList, ".".toList, false, false, false⟩

/-- A fixed date for the output-file name. -/
def todayEx : Str := "2026-10-12".toList

theorem claim_C8_counterexample :
    writtenFiles (main_events argsSkipEx)
      = [".".toList ++ pdf1Name, ".".toList ++ pdf2Name]
    ∧ writtenFiles (main_events argsNoSkipEx) = []
    ∧ writtenFiles (main_events argsSkipEx) ≠ [save_to_csv_path (".".toList) todayEx]
    ∧ writtenFiles (main_events argsNoSkipEx) ≠ [save_to_csv_path (".".toList) todayEx] :=
  ⟨by decide, by decide, by decide, by decide⟩

/-- Claim C8 (amended): no completed run writes the CSV file.  A run without
`--skip` exits with status 1 before converting anything; a run with `--skip`
writes exactly the two PDF report files under the output directory.  The
function `save_to_csv` — which is unreachable from `main` — would write the
single file `<output>/apple_health_export_<date>.csv`. -/
theorem claim_C8_writes (args : Args) (today : Str) :
    (writtenFiles (main_events args)
      = if args.skip then [args.output ++ pdf1Name, args.output ++ pdf2Name] else [])
    ∧ ((Ev.exited 1 ∈ main_events args) ↔ args.skip = false)
    ∧ writtenFiles (save_to_csv_events args.output today)
        = [save_to_csv_path args.output today] := by
  refine ⟨?_, ?_, rfl⟩
  · unfold main_events writtenFiles
    cases args.skip <;> cases args.debug <;> cases args.quiet <;>
      by_cases h1 : args.output ≠ [] <;> by_cases h2 : args.file ≠ [] <;>
        simp [h1, h2]
  · unfold main_events
    cases hs : args.skip <;> cases args.debug <;> cases args.quiet <;>
      by_cases h1 : args.output ≠ [] <;> by_cases h2 : args.file ≠ [] <;>
        simp [h1, h2]

/-! ### The two blood-pressure plotting functions (claim C9)

The merged blood-pressure frame and the heart-rate frame are modelled with
their dates as strings (ordered like the underlying timestamps) and their
numeric values abstract; `np.polyfit` and polynomial evaluation are abstract
parameters, since both functions call them on identical arguments. -/

/-- The columns of the merged blood-pressure frame used by the plots. -/
structure BPData (R : Type) where
  index : List Int
  startDate : List Str
  value_systolic : List R
  value_diastolic : List R

/-- The columns of the heart-rate frame used by the plots. -/
structure HRData (R : Type) where
  startDate : List Str
  value : List R

/-- Non-strict string comparison, `a <= b`. -/
def strLeB (a b : Str) : Bool := !(strLtB b a)

/-- pandas `Series.min()` over the dates (`NaN`, modelled `none`, when the
series is empty). -/
def dateMinOf (l : List Str) : Option Str :=
  l.foldl (fun acc d =>
    match acc with
    | none => some d
    | some m => if strLtB d m then some d else some m) none

/-- pandas `Series.max()` over the dates. -/
def dateMaxOf (l : List Str) : Option Str :=
  l.foldl (fun acc d =>
    match acc with
    | none => some d
    | some m => if strLtB m d then some d else some m) none

/-- The filter
`hdata[(hdata['startDate'] >= mn) & (hdata['startDate'] <= mx)]`; comparisons
against a missing bound are false, so the window is empty. -/
def heartRateWindow {R : Type} (hdata : HRData R) (mn mx : Option Str) :
    List (Str × R) :=
  match mn, mx with
  | some m, some M =>
    (hdata.startDate.zip hdata.value).filter (fun p => strLeB m p.1 && strLeB p.1 M)
  | _, _ => []

/-- The data series a plotting call draws: the two scatter series, the two
degree-1 fit results, the two evaluated trend lines, and the filtered
heart-rate points. -/
structure PlotComputation (R C : Type) where
  scatterSystolic : List Str × List R
  scatterDiastolic : List Str × List R
  zSystolic : C
  zDiastolic : C
  trendSystolic : List Str × List R
  trendDiastolic : List Str × List R
  heartRate : List (Str × R)

/-- The cosmetic settings of a plotting call. -/
structure PlotStyle where
  xlabel : Str
  ylabel : Str
  labelSystolic : Str
  labelDiastolic : Str
  labelHeart : Str
  ylabelRight : Str
  title : Str
  xlim : Option (Option Str × Option Str)

/-- Model of `plot_data_with_trend` (source lines 164-188): `polyfit x y deg`
abstracts `np.polyfit` and `polyval z x` abstracts evaluating the fitted
polynomial on the index. -/
def plot_data_with_trend {R C : Type} (polyfit : List Int → List R → Nat → C)
    (polyval : C → List Int → List R) (data : BPData R) (hdata : HRData R)
    (title : Str) : PlotComputation R C × PlotStyle :=
  let z_systolic := polyfit data.index data.value_systolic 1
  let z_diastolic := polyfit data.index data.value_diastolic 1
  let heart_rate_filtered :=
    heartRateWindow hdata (dateMinOf data.startDate) (dateMaxOf data.startDate)
  (⟨(data.startDate, data.value_systolic),
    (data.startDate, data.value_diastolic),
    z_systolic, z_diastolic,
    (data.startDate, polyval z_systolic data.index),
    (data.startDate, polyval z_diastolic data.index),
    heart_rate_filtered⟩,
   ⟨"Date".toList, "Blood Pressure (mmHg)".toList, "Systolic".toList,
    "Diastolic".toList, "Heart Rate".toList, "Heart Rate (count/min)".toList,
    title, none⟩)

/-- Model of `plot_data_with_german_labels_adjusted` (source lines 199-221):
the same series as `plot_data_with_trend`, German labels, and an explicit
x-axis limit `[startDate.min(), startDate.max()]`. -/
def plot_data_with_german_labels_adjusted {R C : Type}
    (polyfit : List Int → List R → Nat → C) (polyval : C → List Int → List R)
    (data : BPData R) (hdata : HRData R) (title : Str) :
    PlotComputation R C × PlotStyle :=
  let z_systolic := polyfit data.index data.value_systolic 1
  let z_diastolic := polyfit data.index data.value_diastolic 1
  let heart_rate_filtered :=
    heartRateWindow hdata (dateMinOf data.startDate) (dateMaxOf data.startDate)
  (⟨(data.startDate, data.value_systolic),
    (data.startDate, data.value_diastolic),
    z_systolic, z_diastolic,
    (data.startDate, polyval z_systolic data.index),
    (data.startDate, polyval z_diastolic data.index),
    heart_rate_filtered⟩,
   ⟨"Datum".toList, "Blutdruck (mmHg)".toList, "Systolisch".toList,
    "Diastolisch".toList, "Herzfrequenz".toList,
    "Herzfrequenz (Schläge/Min)".toList, title,
    some (dateMinOf data.startDate, dateMaxOf data.startDate)⟩)

/-- Claim C9: for every input pair and every polynomial-fitting backend, the
two plotting functions compute identical underlying data — the same scatter
series, the same degree-1 fit coefficients, the same trend lines, and the
same heart-rate subset restricted to the window
`[min startDate, max startDate]`; they differ only in the cosmetic settings
(language of the labels and the explicit x-axis limits of the German
variant). -/
theorem claim_C9_plot_equivalence {R C : Type} (polyfit : List Int → List R → Nat → C)
    (polyval : C → List Int → List R) (data : BPData R) (hdata : HRData R)
    (t1 t2 : Str) :
    (plot_data_with_trend polyfit polyval data hdata t1).1
      = (plot_data_with_german_labels_adjusted polyfit polyval data hdata t2).1
    ∧ (plot_data_with_trend polyfit polyval data hdata t1).2.xlim = none
    ∧ (plot_data_with_german_labels_adjusted polyfit polyval data hdata t2).2.xlim
        = some (dateMinOf data.startDate, dateMaxOf data.startDate) :=
  ⟨rfl, rfl, rfl⟩

end AppleHealth
